import Mathlib

/-!
# Verification of the BrainNetPrediction feature-selection pipeline

Shallow embedding of the two submission scripts (`Team 15/team15.py`,
`Team 17/main.py`).  A data frame is modelled as a list of rows over ℚ
(`RowMat`); columns are extracted with `colOf`.  The external regression
estimators (the spec's Model Adapter) and the statsmodels OLS p-value
computation are abstracted as oracle parameters; everything that the two
scripts themselves compute — pairwise-correlation column pruning, the
backward-elimination control flow, the leave-one-out outlier filter, the
KFold split geometry, duplicate-column dropping, and the output writer —
is embedded directly from the source.

Pearson correlation over the reals involves square roots, so the two
threshold tests the source performs on a correlation value are encoded as
decidable rational predicates on the centred second moments:
for columns a, b with Sxx = Σ(aᵢ-ā)², Syy = Σ(bᵢ-b̄)², Sxy = Σ(aᵢ-ā)(bᵢ-b̄),
  corr(a,b) ≥ 9/10  ↔  Sxx ≠ 0 ∧ Syy ≠ 0 ∧ 0 ≤ Sxy ∧ 81·Sxx·Syy ≤ 100·Sxy²
(`corrGE09`), and pandas yields NaN when a variance vanishes, in which
case the Python comparison `NaN >= 0.9` is `False` — hence the guard.
-/

/-- A column of a data frame: one rational entry per sample. -/
abbrev Col := List ℚ

/-- A data frame: a list of rows (samples), each a list of rational
feature values. -/
abbrev RowMat := List (List ℚ)

/-- Number of columns of a frame (width of the first row, as
`df.shape[1]` / `corr.shape[0]` report for a rectangular frame). -/
def ncols (X : RowMat) : ℕ := (X.headD []).length

/-- The `j`-th column of a frame. -/
def colOf (X : RowMat) (j : ℕ) : Col := X.map (fun r => r.getD j 0)

/-- Mean of a column (Lean's `0/0 = 0` covers the empty column, which the
scripts never produce). -/
def colMean (c : Col) : ℚ := c.sum / (c.length : ℚ)

/-- Centred second moment Σ (aᵢ - mean a) · (bᵢ - mean b), the numerator
pandas uses for covariance/correlation (the 1/(n-1) factors cancel inside
the correlation ratio). -/
def sxy (a b : Col) : ℚ :=
  ((a.zip b).map (fun p => (p.1 - colMean a) * (p.2 - colMean b))).sum

/-- The source's threshold test `corr.iloc[i,j] >= 0.9` (signed — the code
takes no absolute value).  When either column has zero variance pandas
reports NaN and the Python comparison is `False`. -/
def corrGE09 (a b : Col) : Bool :=
  if sxy a a = 0 ∨ sxy b b = 0 then false
  else decide (0 ≤ sxy a b ∧ 81 * sxy a a * sxy b b ≤ 100 * (sxy a b) ^ 2)

/-- The spec's wording of the same test, `|corr(i,j)| ≥ 0.9`, encoded the
same way without the sign condition.  Kept only to compare the spec's
words against the source's `corrGE09`. -/
def specAbsCorrGE09 (a b : Col) : Bool :=
  if sxy a a = 0 ∨ sxy b b = 0 then false
  else decide (81 * sxy a a * sxy b b ≤ 100 * (sxy a b) ^ 2)

/-- The correlation-threshold relation between columns `i` and `j` of a
frame. -/
def corrC (X : RowMat) (i j : ℕ) : Bool := corrGE09 (colOf X i) (colOf X j)

/-- The `(i, j)` pairs, `i < j < n`, visited by the source's double loop
`for i in range(n): for j in range(i+1, n):`. -/
def pairList (n : ℕ) : List (ℕ × ℕ) :=
  (List.range n).bind (fun i => ((List.range n).filter (fun j => i < j)).map (fun j => (i, j)))

/-- One step of the marking loop: `if corr.iloc[i,j] >= 0.9: if columns[j]:
columns[j] = False`.  The mask is a function ℕ → Bool (`True` = retained). -/
def maskStep (c : ℕ → ℕ → Bool) (m : ℕ → Bool) (p : ℕ × ℕ) : ℕ → Bool :=
  fun k => if c p.1 p.2 && m p.2 && decide (k = p.2) then false else m k

/-- The retained-column mask produced by the pairwise-correlation loop,
starting from `np.full(n, True)`. -/
def featureMaskF (n : ℕ) (c : ℕ → ℕ → Bool) : ℕ → Bool :=
  (pairList n).foldl (maskStep c) (fun _ => true)

/-- `selected_columns = x_tra.columns[columns]`: the indices whose mask
entry stayed `True`, in increasing order. -/
def selectedIdxs (X : RowMat) : List ℕ :=
  (List.range (ncols X)).filter (fun j => featureMaskF (ncols X) (corrC X) j)

/-- Project every row of a frame onto a list of column indices (pandas
column selection `df[selected_columns]`). -/
def projectCols (X : RowMat) (idxs : List ℕ) : RowMat :=
  X.map (fun r => idxs.map (fun j => r.getD j 0))

/-- The Feature Reducer of `Team 17/main.py` (lines 91–106): mark
higher-index members of `corr ≥ 0.9` pairs and keep the surviving
columns. -/
def featureReducer (X : RowMat) : RowMat := projectCols X (selectedIdxs X)

/-! ### Characterisation of the marking loop -/

theorem foldl_maskStep_apply (c : ℕ → ℕ → Bool) :
    ∀ (L : List (ℕ × ℕ)) (m : ℕ → Bool) (k : ℕ),
      (L.foldl (maskStep c) m) k
        = (m k && !(L.any (fun p => decide (p.2 = k) && c p.1 p.2))) := by
  intro L
  induction L with
  | nil => intro m k; simp
  | cons p L ih =>
    intro m k
    rw [List.foldl_cons, ih, List.any_cons]
    by_cases hk : k = p.2
    · subst hk
      cases hc : c p.1 p.2 <;> cases hm : m p.2 <;> simp [maskStep, hc, hm]
    · have hstep : (maskStep c m p) k = m k := by
        simp [maskStep, hk]
      rw [hstep]
      have hpk : (decide (p.2 = k)) = false := decide_eq_false (fun h => hk h.symm)
      simp [hpk, Bool.and_assoc]

theorem mem_pairList {n i j : ℕ} : (i, j) ∈ pairList n ↔ i < j ∧ j < n := by
  constructor
  · intro h
    rcases List.mem_bind.mp h with ⟨a, _, hmem⟩
    rcases List.mem_map.mp hmem with ⟨b, hb, heq⟩
    rcases List.mem_filter.mp hb with ⟨hbr, hab⟩
    injection heq with h1 h2
    subst h1; subst h2
    exact ⟨by simpa using hab, List.mem_range.mp hbr⟩
  · rintro ⟨hij, hjn⟩
    refine List.mem_bind.mpr ⟨i, List.mem_range.mpr (lt_trans hij hjn), ?_⟩
    exact List.mem_map.mpr ⟨j, List.mem_filter.mpr ⟨List.mem_range.mpr hjn, by simpa using hij⟩, rfl⟩

/-- Final mask value: column `k` is dropped exactly when some earlier
in-range column correlates with it at or above the threshold. -/
theorem featureMaskF_eq_false_iff (n : ℕ) (c : ℕ → ℕ → Bool) (k : ℕ) (hk : k < n) :
    featureMaskF n c k = false ↔ ∃ i, i < k ∧ c i k = true := by
  unfold featureMaskF
  rw [foldl_maskStep_apply]
  simp only [Bool.true_and, Bool.not_eq_false', List.any_eq_true]
  constructor
  · rintro ⟨p, hp, hpk⟩
    rcases (Bool.and_eq_true _ _).mp hpk with ⟨h1, h2⟩
    have hpk2 : p.2 = k := of_decide_eq_true h1
    subst hpk2
    have hmem : p.1 < p.2 ∧ p.2 < n := mem_pairList.mp (by simpa using hp)
    exact ⟨p.1, hmem.1, h2⟩
  · rintro ⟨i, hik, hc⟩
    exact ⟨(i, k), mem_pairList.mpr ⟨hik, hk⟩, by simp [hc]⟩

/-! ### Projection lemmas -/

/-- Rectangularity: every row has the frame's column count (true of every
DataFrame the scripts build). -/
def Rect (X : RowMat) : Prop := ∀ r ∈ X, r.length = ncols X

theorem getD_map_of_lt (f : ℕ → ℚ) :
    ∀ (l : List ℕ) (k : ℕ), k < l.length → (l.map f).getD k 0 = f (l.getD k 0) := by
  intro l
  induction l with
  | nil => intro k hk; simp at hk
  | cons a t ih =>
    intro k hk
    cases k with
    | zero => simp
    | succ k =>
      simp only [List.map_cons, List.getD_cons_succ]
      exact ih k (by simpa using hk)

theorem range_map_getD (l : List ℚ) :
    (List.range l.length).map (fun j => l.getD j 0) = l := by
  induction l with
  | nil => simp
  | cons a t ih =>
    rw [List.length_cons, List.range_succ_eq_map, List.map_cons, List.map_map]
    have hf : ((fun j => (a :: t).getD j 0) ∘ Nat.succ) = (fun j => t.getD j 0) := by
      funext j; simp
    rw [hf, ih]
    simp

theorem projectCols_range_of_rect (X : RowMat) (h : Rect X) :
    projectCols X (List.range (ncols X)) = X := by
  unfold projectCols
  rw [List.map_congr_left (g := id) ?_, List.map_id]
  intro r hr
  have := h r hr
  simpa [this] using range_map_getD r

theorem colOf_projectCols (X : RowMat) (idxs : List ℕ) (k : ℕ) (hk : k < idxs.length) :
    colOf (projectCols X idxs) k = colOf X (idxs.getD k 0) := by
  unfold colOf projectCols
  rw [List.map_map]
  refine List.map_congr_left ?_
  intro r _
  exact getD_map_of_lt (fun j => r.getD j 0) idxs k hk

theorem mem_selectedIdxs {X : RowMat} {m : ℕ} (h : m ∈ selectedIdxs X) :
    m < ncols X ∧ featureMaskF (ncols X) (corrC X) m = true := by
  rcases List.mem_filter.mp h with ⟨h1, h2⟩
  exact ⟨List.mem_range.mp h1, by simpa using h2⟩

theorem selectedIdxs_strict_mono (X : RowMat) (k l : ℕ)
    (hk : k < (selectedIdxs X).length) (hl : l < (selectedIdxs X).length) (hkl : k < l) :
    (selectedIdxs X).getD k 0 < (selectedIdxs X).getD l 0 := by
  have hpw : (selectedIdxs X).Pairwise (· < ·) :=
    (List.pairwise_lt_range _).filter _
  have := (List.pairwise_iff_get.mp hpw) ⟨k, hk⟩ ⟨l, hl⟩ (by simpa using hkl)
  rwa [List.getD_eq_get _ _ hk, List.getD_eq_get _ _ hl]

theorem getD_mem_selectedIdxs (X : RowMat) (k : ℕ) (hk : k < (selectedIdxs X).length) :
    (selectedIdxs X).getD k 0 ∈ selectedIdxs X := by
  rw [List.getD_eq_get _ _ hk]
  exact List.get_mem _ _ _

/-! ### C8: the Feature Reducer is idempotent -/

theorem ncols_featureReducer (r0 : List ℚ) (Xt : RowMat) :
    ncols (featureReducer (r0 :: Xt)) = (selectedIdxs (r0 :: Xt)).length := by
  simp [featureReducer, projectCols, ncols]

theorem colOf_featureReducer (X : RowMat) (k : ℕ) (hk : k < (selectedIdxs X).length) :
    colOf (featureReducer X) k = colOf X ((selectedIdxs X).getD k 0) :=
  colOf_projectCols X (selectedIdxs X) k hk

/-- C8: applying the correlation-thresholding column selection a second
time to the already-reduced matrix removes no further columns: every pair
of retained columns already failed the threshold test, so the second
pass's mask is all-`True` and the projection is the identity. -/
theorem featureReducer_idempotent (X : RowMat) :
    featureReducer (featureReducer X) = featureReducer X := by
  cases X with
  | nil => rfl
  | cons r0 Xt =>
    set X : RowMat := r0 :: Xt with hX
    set R : RowMat := featureReducer X with hR
    have hncR : ncols R = (selectedIdxs X).length := ncols_featureReducer r0 Xt
    have hmaskR : ∀ k, k < ncols R → featureMaskF (ncols R) (corrC R) k = true := by
      intro k hkR
      cases hmv : featureMaskF (ncols R) (corrC R) k with
      | true => rfl
      | false =>
        exfalso
        rcases (featureMaskF_eq_false_iff (ncols R) (corrC R) k hkR).mp hmv with ⟨i, hik, hcik⟩
        have hkS : k < (selectedIdxs X).length := hncR ▸ hkR
        have hiS : i < (selectedIdxs X).length := lt_trans hik hkS
        have hci : corrC R i k =
            corrC X ((selectedIdxs X).getD i 0) ((selectedIdxs X).getD k 0) := by
          unfold corrC
          rw [colOf_featureReducer X i hiS, colOf_featureReducer X k hkS]
        have hlt : (selectedIdxs X).getD i 0 < (selectedIdxs X).getD k 0 :=
          selectedIdxs_strict_mono X i k hiS hkS hik
        have hmem := getD_mem_selectedIdxs X k hkS
        rcases mem_selectedIdxs hmem with ⟨hlt_n, hmask_true⟩
        have : featureMaskF (ncols X) (corrC X) ((selectedIdxs X).getD k 0) = false :=
          (featureMaskF_eq_false_iff (ncols X) (corrC X) _ hlt_n).mpr
            ⟨(selectedIdxs X).getD i 0, hlt, by rw [← hci, hcik]⟩
        rw [hmask_true] at this
        exact Bool.noConfusion this
    have hsel : selectedIdxs R = List.range (ncols R) := by
      unfold selectedIdxs
      refine List.filter_eq_self.mpr ?_
      intro a ha
      simpa using hmaskR a (List.mem_range.mp ha)
    have hrectR : Rect R := by
      intro r hr
      rcases List.mem_map.mp hr with ⟨r', _, rfl⟩
      simp [hncR]
    rw [show featureReducer R = projectCols R (selectedIdxs R) from rfl, hsel,
      projectCols_range_of_rect R hrectR]

/-! ### C2: the retention rule of the Feature Reducer -/

/-- C2 (amended): the marking loop drops column `j` exactly when some
earlier column `i` satisfies the source's signed test `corr(i,j) ≥ 0.9`
(no absolute value); if no ordered pair meets the signed threshold the
reducer is the identity; and on a two-column frame whose pair meets the
threshold, exactly the higher-index column is removed. -/
theorem featureReducer_threshold_spec (X : RowMat) (hrect : Rect X) :
    (∀ j, j < ncols X →
      (featureMaskF (ncols X) (corrC X) j = false ↔ ∃ i, i < j ∧ corrC X i j = true)) ∧
    ((∀ i j, i < j → j < ncols X → corrC X i j = false) → featureReducer X = X) ∧
    (ncols X = 2 → corrC X 0 1 = true → featureReducer X = projectCols X [0]) := by
  refine ⟨fun j hj => featureMaskF_eq_false_iff _ _ j hj, ?_, ?_⟩
  · intro hall
    have hmask : ∀ j ∈ List.range (ncols X), featureMaskF (ncols X) (corrC X) j = true := by
      intro j hjr
      have hj := List.mem_range.mp hjr
      cases hmv : featureMaskF (ncols X) (corrC X) j with
      | true => rfl
      | false =>
        rcases (featureMaskF_eq_false_iff _ _ j hj).mp hmv with ⟨i, hik, hc⟩
        rw [hall i j hik hj] at hc
        exact Bool.noConfusion hc
    have hsel : selectedIdxs X = List.range (ncols X) :=
      List.filter_eq_self.mpr (fun a ha => by simpa using hmask a ha)
    rw [featureReducer, hsel, projectCols_range_of_rect X hrect]
  · intro h2 hc
    have h0 : featureMaskF (ncols X) (corrC X) 0 = true := by
      cases hmv : featureMaskF (ncols X) (corrC X) 0 with
      | true => rfl
      | false =>
        rcases (featureMaskF_eq_false_iff _ _ 0 (by omega)).mp hmv with ⟨i, hik, _⟩
        exact absurd hik (Nat.not_lt_zero i)
    have h1 : featureMaskF (ncols X) (corrC X) 1 = false :=
      (featureMaskF_eq_false_iff _ _ 1 (by omega)).mpr ⟨0, by omega, hc⟩
    have hsel : selectedIdxs X = [0] := by
      rw [selectedIdxs, h2] at *
      rw [show List.range 2 = [0, 1] from rfl]
      simp [h0, h1]
    rw [featureReducer, hsel]

/-- Witness for `featureReducer_threshold_spec`: on a frame whose second
column is twice the first (corr = 1), exactly column 1 is removed. -/
theorem featureReducer_threshold_spec_witness :
    featureReducer [[1, 2], [2, 4], [3, 6]] = projectCols [[1, 2], [2, 4], [3, 6]] [0] :=
  (featureReducer_threshold_spec [[1, 2], [2, 4], [3, 6]]
      (by unfold Rect; simp [ncols])).2.2
    (by rfl) (by norm_num [corrC, corrGE09, sxy, colMean, colOf])

/-- Counterexample to C2 as stated: columns [1,2,3] and [3,2,1] are
perfectly anti-correlated, so |corr(0,1)| = 1 ≥ 0.9 and the claim says
column 1 must be removed; the code's signed test `corr >= 0.9` is false
at corr = −1 and both columns survive. -/
theorem corr_threshold_abs_counterexample :
    specAbsCorrGE09 (colOf [[1, 3], [2, 2], [3, 1]] 0) (colOf [[1, 3], [2, 2], [3, 1]] 1)
        = true ∧
    featureReducer [[1, 3], [2, 2], [3, 1]] = [[1, 3], [2, 2], [3, 1]] := by
  constructor
  · norm_num [specAbsCorrGE09, sxy, colMean, colOf]
  · norm_num [featureReducer, selectedIdxs, ncols, featureMaskF, pairList, maskStep,
      projectCols, corrC, corrGE09, sxy, colMean, colOf, List.range_succ, List.filter]

/-! ### C7: undefined (NaN) correlations -/

theorem sxy_self_eq_zero_of_const (c : Col) (v : ℚ) (h : ∀ a ∈ c, a = v) :
    sxy c c = 0 := by
  unfold sxy
  refine List.sum_eq_zero ?_
  intro x hx
  rcases List.mem_map.mp hx with ⟨p, hp, rfl⟩
  have hmem := List.mem_zip hp
  have h1 : p.1 = v := h p.1 hmem.1
  have h2 : p.2 = v := h p.2 hmem.2
  have hmean : colMean c = v := by
    have hne : c ≠ [] := by
      intro hnil
      rw [hnil] at hp
      exact absurd hp (by simp)
    have hlen0 : c.length ≠ 0 := fun h0 => hne (List.length_eq_zero.mp h0)
    have hlen : (c.length : ℚ) ≠ 0 := Nat.cast_ne_zero.mpr hlen0
    have hsum : c.sum = (c.length : ℚ) * v := by
      rw [List.sum_eq_card_nsmul c v h]
      simp [nsmul_eq_mul]
    rw [colMean, hsum, mul_comm, mul_div_assoc, div_self hlen, mul_one]
  rw [h1, h2, hmean, sub_self, mul_zero]

theorem corrGE09_undefined_left (a b : Col) (h : sxy a a = 0) :
    corrGE09 a b = false := by
  unfold corrGE09
  rw [if_pos (Or.inl h)]

theorem corrGE09_undefined_right (a b : Col) (h : sxy b b = 0) :
    corrGE09 a b = false := by
  unfold corrGE09
  rw [if_pos (Or.inr h)]

/-- C7 (amended): a pair with undefined (NaN) correlation never passes the
threshold test (so the reducer does not crash and no removal is caused by
such a pair), and a constant column itself is always retained; but the
non-constant partner of a NaN pair may still be removed by a different,
defined pair (see the counterexample). -/
theorem nan_correlation_excluded (X : RowMat) (c : ℕ) (hc : c < ncols X) (v : ℚ)
    (hconst : ∀ a ∈ colOf X c, a = v) :
    (∀ a b : Col, sxy a a = 0 ∨ sxy b b = 0 → corrGE09 a b = false) ∧
    (∀ j, corrC X c j = false) ∧
    (∀ i, corrC X i c = false) ∧
    featureMaskF (ncols X) (corrC X) c = true := by
  have hzero : sxy (colOf X c) (colOf X c) = 0 := sxy_self_eq_zero_of_const _ v hconst
  refine ⟨?_, ?_, ?_, ?_⟩
  · intro a b h
    unfold corrGE09
    rw [if_pos h]
  · intro j
    exact corrGE09_undefined_left _ _ hzero
  · intro i
    exact corrGE09_undefined_right _ _ hzero
  · cases hmv : featureMaskF (ncols X) (corrC X) c with
    | true => rfl
    | false =>
      exfalso
      rcases (featureMaskF_eq_false_iff _ _ c hc).mp hmv with ⟨i, _, hci⟩
      unfold corrC at hci
      rw [corrGE09_undefined_right _ _ hzero] at hci
      exact Bool.noConfusion hci

/-- Witness for `nan_correlation_excluded`: the constant column 0 of
`[[5,1],[5,2]]` is retained. -/
theorem nan_correlation_excluded_witness :
    featureMaskF (ncols [[5, 1], [5, 2]]) (corrC [[5, 1], [5, 2]]) 0 = true :=
  (nan_correlation_excluded [[5, 1], [5, 2]] 0 (by norm_num [ncols]) 5
    (by norm_num [colOf])).2.2.2

/-- Counterexample to C7 as stated: in `[[5,1,1],[5,2,2]]` column 0 is
constant, so the pair (0,2) has undefined correlation, yet column 2 is
removed (because of the defined pair (1,2) with corr = 1): it is not true
that both columns of every NaN pair are retained. -/
theorem nan_pair_not_both_retained_counterexample :
    sxy (colOf [[5, 1, 1], [5, 2, 2]] 0) (colOf [[5, 1, 1], [5, 2, 2]] 0) = 0 ∧
    featureMaskF (ncols [[5, 1, 1], [5, 2, 2]]) (corrC [[5, 1, 1], [5, 2, 2]]) 2 = false ∧
    featureReducer [[5, 1, 1], [5, 2, 2]] = [[5, 1], [5, 2]] := by
  refine ⟨?_, ?_, ?_⟩
  · norm_num [sxy, colMean, colOf]
  · norm_num [ncols, featureMaskF, pairList, maskStep, corrC, corrGE09, sxy, colMean,
      colOf, List.range_succ, List.filter]
  · norm_num [featureReducer, selectedIdxs, ncols, featureMaskF, pairList, maskStep,
      projectCols, corrC, corrGE09, sxy, colMean, colOf, List.range_succ, List.filter]

/-! ### Team 15: duplicate-column dropping and `preprocessing` -/

/-- Column indices kept by `df.T.drop_duplicates(keep='first').T`
(`team15.py`): a row of the transposed frame is an original column, and
`drop_duplicates(keep='first')` keeps a row iff no earlier row has
identical values. -/
def dupKeptIdxs (X : RowMat) : List ℕ :=
  (List.range (ncols X)).filter (fun j => decide (∀ i, i < j → colOf X i ≠ colOf X j))

/-- `df.T.drop_duplicates(keep='first').T`. -/
def dropDupCols (X : RowMat) : RowMat := projectCols X (dupKeptIdxs X)

/-- Caller-observable outcome of Team 15's `preprocessing(train_t0,
test_t0)` (lines 62–75) together with the final values of its locals.
`train_t0 = train_t0_T.drop_duplicates(keep='first').T` rebinds the
parameter name to a fresh frame — `drop_duplicates` and `.T` return new
objects and mutate nothing — so the caller's frames are untouched, and
the body ends without a `return` statement, i.e. returns `None`. -/
structure Prep15Result where
  ret : Option RowMat
  caller_train : RowMat
  caller_test : RowMat
  local_train : RowMat
  local_test : RowMat

/-- Team 15's `preprocessing(train_t0, test_t0)`. -/
def preprocessing15 (train_t0 test_t0 : RowMat) : Prep15Result :=
  { ret := none
    caller_train := train_t0
    caller_test := test_t0
    local_train := dropDupCols train_t0
    local_test := dropDupCols test_t0 }

/-- C9: Team 15's `preprocessing` has no observable effect at its
interface: it returns `None` and leaves both argument frames unchanged;
the duplicate-column dropping it computes ends up only in its discarded
locals. -/
theorem preprocessing15_no_observable_effect (a b : RowMat) :
    (preprocessing15 a b).ret = none ∧
    (preprocessing15 a b).caller_train = a ∧
    (preprocessing15 a b).caller_test = b ∧
    (preprocessing15 a b).local_train = dropDupCols a ∧
    (preprocessing15 a b).local_test = dropDupCols b :=
  ⟨rfl, rfl, rfl, rfl, rfl⟩

/-- The per-fold preprocessing of Team 15's `cv5` (lines 92–106): the
train and the test matrix each get their own duplicate-column
dropping. -/
def cv5FoldPrep (X_train X_test : RowMat) : RowMat × RowMat :=
  (dropDupCols X_train, dropDupCols X_test)

/-! ### sklearn KFold split geometry -/

/-- sklearn `KFold` fold sizes: `n // k`, plus one extra for the first
`n % k` folds. -/
def kfoldSizes (n k : ℕ) : List ℕ :=
  (List.range k).map (fun i => n / k + if i < n % k then 1 else 0)

/-- Chop an index list into consecutive chunks of the given sizes. -/
def chunks : List ℕ → List ℕ → List (List ℕ)
  | _, [] => []
  | l, s :: rest => l.take s :: chunks (l.drop s) rest

/-- Test-index blocks of `KFold(n_splits=k, shuffle=False).split(range(n))`:
consecutive blocks of the unshuffled indices. -/
def kfoldBlocks (n k : ℕ) : List (List ℕ) := chunks (List.range n) (kfoldSizes n k)

/-- Test-index blocks with `shuffle=True`: the seeded permutation of the
indices is chopped instead.  The permutation generator is an abstract
parameter: sklearn's seeded RNG is a pure function of the seed. -/
def shuffledKFoldBlocks (shuffleF : ℕ → ℕ → List ℕ) (seed n k : ℕ) : List (List ℕ) :=
  chunks (shuffleF seed n) (kfoldSizes n k)

theorem chunks_replicate_one :
    ∀ (m : ℕ) (l : List ℕ), m ≤ l.length →
      chunks l (List.replicate m 1) = (l.take m).map (fun a => [a]) := by
  intro m
  induction m with
  | zero => intro l _; simp [chunks]
  | succ m ih =>
    intro l hl
    cases l with
    | nil => simp at hl
    | cons a t =>
      rw [List.replicate_succ]
      show (a :: t).take 1 :: chunks ((a :: t).drop 1) (List.replicate m 1) = _
      rw [show (a :: t).drop 1 = t from rfl, ih t (by simpa using hl)]
      simp

theorem kfoldSizes_self (n : ℕ) : kfoldSizes n n = List.replicate n 1 := by
  cases n with
  | zero => rfl
  | succ m =>
    unfold kfoldSizes
    rw [Nat.div_self (Nat.succ_pos m), Nat.mod_self]
    simp [List.map_const']

/-- With `n_splits = n` (leave-one-out) every fold's test block is the
singleton of its fold index, in order. -/
theorem kfoldBlocks_self (n : ℕ) :
    kfoldBlocks n n = (List.range n).map (fun k => [k]) := by
  unfold kfoldBlocks
  rw [kfoldSizes_self n, chunks_replicate_one n (List.range n) (by simp)]
  congr 1
  simp [List.take_range]

/-! ### Team 17: the Outlier Filter -/

/-- Abstract Model Adapter + metric:
`error_func(y_test, predict(x_test, train_model(x_train, y_train)))` as a
function of the four fold frames — the estimator and the MSE metric are
external collaborators. -/
abbrev ErrOracle := RowMat → RowMat → RowMat → RowMat → ℚ

/-- `df.iloc[indices]`: the rows at the given positions, in that order. -/
def selRows (X : RowMat) (idxs : List ℕ) : RowMat := idxs.map (fun i => X.getD i [])

/-- The per-fold errors of the leave-one-out loop.  The split is
`KFold(n_splits=x_tra.shape[0], random_state=r.seed(1), shuffle=False)`
— note `r.seed(1)` evaluates to `None`, and with `shuffle=False` the
split is the unshuffled one, so `random_state` is ignored. -/
def looErrors (me : ErrOracle) (X Y : RowMat) : List ℚ :=
  (kfoldBlocks X.length X.length).map (fun blk =>
    me (selRows X ((List.range X.length).filter (fun i => decide (i ∉ blk))))
       (selRows Y ((List.range X.length).filter (fun i => decide (i ∉ blk))))
       (selRows X blk) (selRows Y blk))

/-- `error_samples`: the `cv_index` fold counters whose fold error
exceeds 0.006 (= 3/500), in fold order. -/
def outlierFlags (me : ErrOracle) (X Y : RowMat) : List ℕ :=
  (List.range (kfoldBlocks X.length X.length).length).filter
    (fun c => decide (3 / 500 < (looErrors me X Y).getD c 0))

/-- `df.reset_index()` followed by `df.drop(order)`: keep the rows whose
position is not a recorded label, preserving their order. -/
def dropRows (X : RowMat) (order : List ℕ) : RowMat :=
  ((List.range X.length).filter (fun k => decide (k ∉ order))).map (fun k => X.getD k [])

/-- The Outlier Filter of `preprocessing` (lines 126–150): flag the
leave-one-out folds whose error exceeds 0.006 and drop the flagged rows
from both train frames. -/
def outlierPrep (me : ErrOracle) (X Y : RowMat) : RowMat × RowMat :=
  (dropRows X (outlierFlags me X Y), dropRows Y (outlierFlags me X Y))

/-- The leave-one-out error of row `k` stated directly: train on every
other row, test on row `k`. -/
def looErrAt (me : ErrOracle) (X Y : RowMat) (k : ℕ) : ℚ :=
  me (selRows X ((List.range X.length).filter (fun i => decide (i ∉ [k]))))
     (selRows Y ((List.range X.length).filter (fun i => decide (i ∉ [k]))))
     (selRows X [k]) (selRows Y [k])

theorem range_getD (n c : ℕ) (hc : c < n) : (List.range n).getD c 0 = c := by
  rw [List.getD_eq_get _ _ (by simpa using hc)]
  exact List.get_range _ _

theorem looErrors_eq_map (me : ErrOracle) (X Y : RowMat) :
    looErrors me X Y = (List.range X.length).map (looErrAt me X Y) := by
  unfold looErrors
  rw [kfoldBlocks_self, List.map_map]
  rfl

theorem length_kfoldBlocks_self (n : ℕ) : (kfoldBlocks n n).length = n := by
  rw [kfoldBlocks_self]
  simp

theorem outlierFlags_eq (me : ErrOracle) (X Y : RowMat) :
    outlierFlags me X Y
      = (List.range X.length).filter (fun k => decide (3 / 500 < looErrAt me X Y k)) := by
  unfold outlierFlags
  rw [length_kfoldBlocks_self]
  refine List.filter_congr ?_
  intro k hk
  have hklt := List.mem_range.mp hk
  rw [looErrors_eq_map,
    getD_map_of_lt (looErrAt me X Y) (List.range X.length) k (by simpa using hklt),
    range_getD _ _ hklt]

theorem mem_outlierFlags (me : ErrOracle) (X Y : RowMat) (k : ℕ) :
    k ∈ outlierFlags me X Y ↔ k < X.length ∧ 3 / 500 < looErrAt me X Y k := by
  rw [outlierFlags_eq]
  constructor
  · intro h
    rcases List.mem_filter.mp h with ⟨h1, h2⟩
    exact ⟨List.mem_range.mp h1, of_decide_eq_true h2⟩
  · rintro ⟨h1, h2⟩
    exact List.mem_filter.mpr ⟨List.mem_range.mpr h1, decide_eq_true h2⟩

theorem dropRows_outlierFlags (me : ErrOracle) (X Y Z : RowMat) (hZ : Z.length = X.length) :
    dropRows Z (outlierFlags me X Y)
      = ((List.range X.length).filter
          (fun k => !(decide (3 / 500 < looErrAt me X Y k)))).map (fun k => Z.getD k []) := by
  unfold dropRows
  rw [hZ]
  congr 1
  refine List.filter_congr ?_
  intro k hk
  have hklt := List.mem_range.mp hk
  have : (k ∉ outlierFlags me X Y) ↔ ¬ 3 / 500 < looErrAt me X Y k := by
    rw [mem_outlierFlags]
    simp [hklt]
  simp only [this]
  rw [decide_not]

/-! ### C10 and C4: leave-one-out split and outlier dropping -/

/-- C10: the Outlier Filter's KFold split is unshuffled, so with
`n_splits = n` the k-th fold's held-out test index is exactly `k`; hence
the recorded `cv_index` values are exactly the row positions whose
held-out error exceeds 0.006, and exactly those rows are dropped from X
and Y (survivors in order). -/
theorem loo_split_unshuffled_spec (me : ErrOracle) (X Y : RowMat)
    (hXY : Y.length = X.length) :
    kfoldBlocks X.length X.length = (List.range X.length).map (fun k => [k]) ∧
    outlierFlags me X Y
      = (List.range X.length).filter (fun k => decide (3 / 500 < looErrAt me X Y k)) ∧
    (outlierPrep me X Y).1
      = ((List.range X.length).filter
          (fun k => !(decide (3 / 500 < looErrAt me X Y k)))).map (fun k => X.getD k []) ∧
    (outlierPrep me X Y).2
      = ((List.range X.length).filter
          (fun k => !(decide (3 / 500 < looErrAt me X Y k)))).map (fun k => Y.getD k []) :=
  ⟨kfoldBlocks_self _, outlierFlags_eq me X Y,
    dropRows_outlierFlags me X Y X rfl, dropRows_outlierFlags me X Y Y hXY⟩

/-- Witness for `loo_split_unshuffled_spec` at a 5-sample train set. -/
theorem loo_split_unshuffled_spec_witness :
    kfoldBlocks 5 5 = (List.range 5).map (fun k => [k]) :=
  (loo_split_unshuffled_spec (fun _ _ xte _ => (xte.headD []).headD 0)
    [[0], [0], [1], [0], [0]] [[0], [0], [1], [0], [0]] rfl).1

theorem length_filter_not (p : ℕ → Bool) (l : List ℕ) :
    (l.filter (fun k => !(p k))).length = l.length - (l.filter p).length := by
  induction l with
  | nil => rfl
  | cons a t ih =>
    have hle : (t.filter p).length ≤ t.length := List.length_filter_le _ _
    cases h : p a <;> simp [List.filter_cons, h, ih] <;> omega

/-- C4: the Outlier Filter runs leave-one-out with fold count equal to
the sample count, records a sample index as an outlier exactly when its
held-out error exceeds 0.006, drops exactly the recorded rows from X and
Y with survivor order preserved, and on 5 samples where exactly one
fold's error exceeds the threshold the returned train set has 4 rows. -/
theorem outlier_filter_spec (me : ErrOracle) (X Y : RowMat)
    (hXY : Y.length = X.length) :
    (kfoldBlocks X.length X.length).length = X.length ∧
    (∀ k, k ∈ outlierFlags me X Y ↔ k < X.length ∧ 3 / 500 < looErrAt me X Y k) ∧
    (outlierPrep me X Y).1
      = ((List.range X.length).filter
          (fun k => decide (k ∉ outlierFlags me X Y))).map (fun k => X.getD k []) ∧
    (outlierPrep me X Y).2
      = ((List.range X.length).filter
          (fun k => decide (k ∉ outlierFlags me X Y))).map (fun k => Y.getD k []) ∧
    (X.length = 5 → (outlierFlags me X Y).length = 1 →
      (outlierPrep me X Y).1.length = 4) := by
  refine ⟨length_kfoldBlocks_self _, mem_outlierFlags me X Y, rfl, ?_, ?_⟩
  · show dropRows Y (outlierFlags me X Y) = _
    unfold dropRows
    rw [hXY]
  · intro h5 h1
    have hchar := dropRows_outlierFlags me X Y X rfl
    have hlen : (outlierPrep me X Y).1.length
        = ((List.range X.length).filter
            (fun k => !(decide (3 / 500 < looErrAt me X Y k)))).length := by
      rw [show (outlierPrep me X Y).1 = _ from hchar, List.length_map]
    rw [hlen, length_filter_not (fun k => decide (3 / 500 < looErrAt me X Y k)),
      ← outlierFlags_eq, List.length_range, h5, h1]

/-- Witness for `outlier_filter_spec`: 5 one-feature samples whose
held-out error is the held-out sample's value; only row 2 (value 1)
exceeds 0.006, and the filtered train set has 4 rows. -/
theorem outlier_filter_spec_witness :
    (outlierPrep (fun _ _ xte _ => (xte.headD []).headD 0)
      [[0], [0], [1], [0], [0]] [[0], [0], [1], [0], [0]]).1.length = 4 :=
  (outlier_filter_spec (fun _ _ xte _ => (xte.headD []).headD 0)
      [[0], [0], [1], [0], [0]] [[0], [0], [1], [0], [0]] rfl).2.2.2.2 rfl
    (by rw [outlierFlags_eq]
        norm_num [looErrAt, selRows, List.range_succ, List.filter])

/-! ### C6: determinism of the seeded runs -/

/-- The observables C6 speaks about for one run of `main.py`: the 5-fold
cross-validation partition (`KFold(n_splits=5, random_state=1,
shuffle=True)`, the seeded permutation modelled as a pure function of the
seed) and the outlier index set of the Outlier Filter (whose own KFold is
unshuffled — it passes `random_state=r.seed(1)`, i.e. `None`, and
`shuffle=False` — so no seed enters it). -/
def team17RunObservables (shuffleF : ℕ → ℕ → List ℕ) (seed : ℕ)
    (me : ErrOracle) (X Y : RowMat) : List (List ℕ) × List ℕ :=
  (shuffledKFoldBlocks shuffleF seed X.length 5, outlierFlags me X Y)

/-- C6: with the seeded RNG modelled as a pure function of the seed, two
runs on the same data with the same seed produce the same fold partition
and the same outlier index set; moreover the outlier set does not depend
on the seed at all, since its KFold is unshuffled. -/
theorem same_seed_same_partition_and_outliers
    (shuffleF : ℕ → ℕ → List ℕ) (seed seed' : ℕ) (me : ErrOracle) (X Y : RowMat) :
    team17RunObservables shuffleF seed me X Y = team17RunObservables shuffleF seed me X Y ∧
    (team17RunObservables shuffleF seed me X Y).2
      = (team17RunObservables shuffleF seed' me X Y).2 :=
  ⟨rfl, rfl⟩

/-! ### Team 17: Backward Eliminator -/

/-- Python-level failure the embedded code can raise. -/
inductive PyError where
  | axisError : PyError
deriving DecidableEq

/-- Oracle for `SMM.OLS(Y_temp, x_temp).fit().pvalues[0]` — the p-value
of the univariate no-intercept OLS of a label column on a feature column
(statsmodels is an external collaborator).  With a single regressor,
`pvalues` has exactly one entry, so `max(regressor.pvalues)` is that
entry. -/
abbrev PvalOracle := Col → Col → ℚ

/-- The backward-elimination loop (`preprocessing`, lines 111–124).  Each
pass `i` fits the univariate OLS of `y[:, i]` on `x[:, i]` and compares
`maxVar = max(regressor.pvalues)` with 0.05.  When `maxVar > 0.05` the
code runs the inner loop at `j = 0` (where `pvalues[0] == maxVar` always
holds) and executes `np.delete(x_temp, j, 1)` on the one-dimensional
column `x_temp = x[:, i]` — numpy raises AxisError (axis 1 is out of
bounds for a 1-D array) — so the pass crashes instead of removing a
column; otherwise `x` is left unchanged. -/
def backwardElim (pval : PvalOracle) (x y : RowMat) : Except PyError RowMat :=
  match (List.range (ncols x)).foldlM
      (fun (_ : Unit) i =>
        if pval (colOf x i) (colOf y i) > 1 / 20 then Except.error PyError.axisError
        else Except.ok ())
      () with
  | Except.error e => Except.error e
  | Except.ok _ => Except.ok x

/-- C3 (the code at the claim's scenario): on a single post-reduction
feature column whose univariate p-value is 0.5 > 0.05 the Backward
Eliminator does not remove the column and keep names in lockstep — it
raises AxisError. -/
theorem backwardElim_crashes_on_high_pvalue :
    backwardElim (fun _ _ => 1 / 2) [[1], [2], [3], [4], [5]] [[1], [2], [3], [4], [5]]
      = Except.error PyError.axisError := by
  norm_num [backwardElim, ncols, List.range_succ, List.foldlM]

/-! ### Team 17: `preprocessing` and C1 -/

/-- Team 17's `preprocessing(x_tra, y_tra, x_tst)` (lines 78–150):
the correlation-based column selection is computed from `x_tra` alone;
`y_tra` is projected onto the selected columns only for the OLS loop
(`t1_temp`); the backward-elimination pass can only crash or leave the
columns unchanged; `x_tst` is re-projected onto the train-derived
selected columns (`pd.DataFrame(data=x_tst, columns=selected_columns)`
selects those columns); finally the leave-one-out Outlier Filter — run
on the selected-column `x_tra` against the full-column `y_tra` — drops
the flagged rows from both train frames. -/
def preprocessing17 (pval : PvalOracle) (me : ErrOracle) (x_tra y_tra x_tst : RowMat) :
    Except PyError (RowMat × RowMat × RowMat) :=
  match backwardElim pval (projectCols x_tra (selectedIdxs x_tra))
      (projectCols y_tra (selectedIdxs x_tra)) with
  | Except.error e => Except.error e
  | Except.ok x =>
    Except.ok ((outlierPrep me x y_tra).1, (outlierPrep me x y_tra).2,
      projectCols x_tst (selectedIdxs x_tra))

/-- C1 (amended): in Team 17's per-fold preprocessing nothing besides the
projected test matrix depends on the test fold — for any two test folds
the selected columns, the crash behaviour and both returned train frames
are identical; and in Team 15's `cv5` the train matrix's duplicate-column
dropping also ignores the test fold.  (The test matrix's own
duplicate-column dropping in `cv5` does depend on the test fold: see the
counterexample.) -/
theorem per_fold_train_decisions_ignore_test_fold
    (pval : PvalOracle) (me : ErrOracle) (x_tra y_tra t t' : RowMat) :
    (preprocessing17 pval me x_tra y_tra t).map (fun r => (r.1, r.2.1))
      = (preprocessing17 pval me x_tra y_tra t').map (fun r => (r.1, r.2.1)) ∧
    (cv5FoldPrep x_tra t).1 = (cv5FoldPrep x_tra t').1 := by
  constructor
  · unfold preprocessing17
    cases backwardElim pval (projectCols x_tra (selectedIdxs x_tra))
        (projectCols y_tra (selectedIdxs x_tra)) <;> rfl
  · rfl

/-- Counterexample to C1 as stated: inside Team 15's `cv5` fold loop,
with the train fold fixed, changing only the test-fold samples changes
which columns the processed test matrix keeps (two duplicate test
columns collapse to one; distinct test columns are both kept) — a
column-selection decision made from data outside the train partition. -/
theorem cv5_test_fold_column_selection_counterexample :
    (cv5FoldPrep [[1, 2], [3, 4]] [[1, 1], [2, 2]]).1
      = (cv5FoldPrep [[1, 2], [3, 4]] [[1, 2], [2, 3]]).1 ∧
    dupKeptIdxs [[1, 1], [2, 2]] ≠ dupKeptIdxs [[1, 2], [2, 3]] ∧
    (cv5FoldPrep [[1, 2], [3, 4]] [[1, 1], [2, 2]]).2
      ≠ (cv5FoldPrep [[1, 2], [3, 4]] [[1, 2], [2, 3]]).2 := by
  refine ⟨rfl, ?_, ?_⟩ <;> decide

/-! ### Output Writer (C5) -/

/-- `predictions.flatten()`: row-major flattening. -/
def flattenPreds (preds : RowMat) : List ℚ := preds.flatten

/-- The data rows of the written file as (ID, predicted) pairs.  Team 15
stacks `np.arange(1, size+1) - 1` (= 0..size−1) against the flat vector;
Team 17 melts the one-column frame of the flat vector, whose default
integer index 0..size−1 becomes the `ID` column.  Both writers emit the
IDs in increasing order, paired with the flattened predictions. -/
def writeOutputRows (preds : RowMat) : List (ℕ × ℚ) :=
  (List.range (flattenPreds preds).length).zip (flattenPreds preds)

theorem zip_get? {α β : Type} :
    ∀ (l1 : List α) (l2 : List β) (k : ℕ),
      (l1.zip l2).get? k = (l1.get? k).bind (fun a => (l2.get? k).map (fun b => (a, b))) := by
  intro l1
  induction l1 with
  | nil => intro l2 k; simp
  | cons a t ih =>
    intro l2 k
    cases l2 with
    | nil => simp
    | cons b t2 =>
      cases k with
      | zero => simp
      | succ k => simpa using ih t2 k

theorem length_join_of_width (M : ℕ) :
    ∀ (rows : RowMat), (∀ r ∈ rows, r.length = M) →
      rows.flatten.length = rows.length * M := by
  intro rows
  induction rows with
  | nil => intro _; simp
  | cons r t ih =>
    intro hM
    have hr : r.length = M := hM r (by simp)
    have ht : ∀ r' ∈ t, r'.length = M := fun r' hr' => hM r' (by simp [hr'])
    rw [List.flatten_cons, List.length_append, hr, ih ht, List.length_cons, Nat.succ_mul,
      Nat.add_comm]

theorem join_get?_of_width (M : ℕ) :
    ∀ (rows : RowMat), (∀ r ∈ rows, r.length = M) →
      ∀ i j, j < M →
        rows.flatten.get? (i * M + j) = (rows.get? i).bind (fun r => r.get? j) := by
  intro rows
  induction rows with
  | nil => intro _ i j _; simp
  | cons r t ih =>
    intro hM i j hj
    have hr : r.length = M := hM r (by simp)
    have ht : ∀ r' ∈ t, r'.length = M := fun r' hr' => hM r' (by simp [hr'])
    cases i with
    | zero =>
      rw [List.flatten_cons, Nat.zero_mul, Nat.zero_add,
        List.get?_append (by rw [hr]; exact hj)]
      rfl
    | succ i =>
      rw [List.flatten_cons,
        List.get?_append_right (by rw [hr, Nat.succ_mul]; omega)]
      have harith : (i + 1) * M + j - r.length = i * M + j := by
        rw [hr, Nat.succ_mul]
        omega
      rw [harith, ih ht i j hj]
      rfl

/-- C5: writing an N×M prediction matrix yields exactly N·M data rows,
with IDs 0..N·M−1 in row-major order, and the row at ID i·M+j carries
exactly the input value at row i, column j (round-trip). -/
theorem write_output_roundtrip (preds : RowMat) (M : ℕ)
    (hM : ∀ r ∈ preds, r.length = M) :
    (writeOutputRows preds).length = preds.length * M ∧
    (writeOutputRows preds).map Prod.fst = List.range (preds.length * M) ∧
    (∀ i j, i < preds.length → j < M →
      (writeOutputRows preds).get? (i * M + j)
        = some (i * M + j, ((preds.get? i).getD []).getD j 0)) := by
  have hlen : (flattenPreds preds).length = preds.length * M :=
    length_join_of_width M preds hM
  refine ⟨?_, ?_, ?_⟩
  · unfold writeOutputRows
    rw [List.length_zip, List.length_range, hlen, min_self]
  · unfold writeOutputRows
    rw [List.map_fst_zip _ _ (by rw [List.length_range]), hlen]
  · intro i j hi hj
    have hk : i * M + j < preds.length * M := by
      calc i * M + j < i * M + M := by omega
        _ = (i + 1) * M := (Nat.succ_mul i M).symm
        _ ≤ preds.length * M := Nat.mul_le_mul_right M hi
    obtain ⟨r, hr⟩ : ∃ r, preds.get? i = some r :=
      ⟨preds.get ⟨i, hi⟩, List.get?_eq_get hi⟩
    have hrM : r.length = M := hM r (List.get?_mem hr)
    obtain ⟨v, hv⟩ : ∃ v, r.get? j = some v :=
      ⟨r.get ⟨j, by omega⟩, List.get?_eq_get (by omega)⟩
    have hflat : (flattenPreds preds).get? (i * M + j) = some v := by
      unfold flattenPreds
      rw [join_get?_of_width M preds hM i j hj, hr]
      simpa using hv
    unfold writeOutputRows
    rw [zip_get?, List.get?_range (by rw [hlen]; exact hk), hflat]
    have hgetD : ((preds.get? i).getD []).getD j 0 = v := by
      rw [hr, show (some r).getD ([] : List ℚ) = r from rfl,
        List.getD_eq_get _ _ (show j < r.length by omega)]
      have h2 := List.get?_eq_get (l := r) (show j < r.length by omega)
      rw [h2] at hv
      exact Option.some.inj hv
    rw [hgetD]
    rfl

/-- Witness for `write_output_roundtrip` at a 2×2 prediction matrix. -/
theorem write_output_roundtrip_witness :
    (writeOutputRows [[1, 2], [3, 4]]).length = 2 * 2 :=
  (write_output_roundtrip [[1, 2], [3, 4]] 2 (by simp)).1
